import Mathlib

/-!
Verification of the wallpaper-crawler repository (`main.py`, `src/base.py`,
`src/wallhere.py`, `src/wallhaven.py`, `src/wallpapercat.py`).

Python strings are embedded as `List Char`; the filesystem as the list of
existing file paths; network and clock effects as explicit event traces.
Each definition is a shallow embedding of the named source function.
-/

/-- The characters removed by the scrapers' sanitizers: the Python regex
character class in `re.sub(r'[\\/*?:"<>|]', ...)` used in `base.py`
(`_sanitize_and_shorten_filename`) and in `wallhaven.py` (`download_image`). -/
def isBadChar (c : Char) : Bool :=
  c = '\\' || c = '/' || c = '*' || c = '?' || c = ':' || c = '"' ||
  c = '<' || c = '>' || c = '|'

/-- `re.sub(r'[\\/*?:"<>|]', "_", filename)`: every character of the class is
replaced by an underscore, all others pass through. -/
def replaceBad (l : List Char) : List Char :=
  l.map (fun c => if isBadChar c then '_' else c)

/-- `true` when no character of the list is in the sanitized class. -/
def noBad (l : List Char) : Bool :=
  l.all (fun c => !(isBadChar c))

/-- Index of the last occurrence of `c` in the list, if any (Python
`str.rfind` restricted to single characters, with `none` for -1). -/
def lastIndexOf (c : Char) : List Char → Option Nat
  | [] => none
  | a :: as =>
    match lastIndexOf c as with
    | some i => some (i + 1)
    | none => if a = c then some 0 else none

/-- `os.path.splitext` (posixpath: separator `'/'`, no altsep): splits at the
last dot provided that dot lies after the last separator and some character
strictly between the separator and that dot is not a dot (so purely leading
dots, as in `.bashrc`, yield an empty extension). -/
def splitext (l : List Char) : List Char × List Char :=
  match lastIndexOf '.' l with
  | none => (l, [])
  | some d =>
    let start := match lastIndexOf '/' l with
      | none => 0
      | some i => i + 1
    if start ≤ d ∧ (((l.drop start).take (d - start)).any (fun c => c ≠ '.')) then
      (l.take d, l.drop d)
    else
      (l, [])

/-- `BaseScraper._sanitize_and_shorten_filename` (`src/base.py` lines 15-31):
replace the illegal characters by `_`, split the extension, and if the name
part exceeds `max_length` characters keep its first `max_length` characters
followed by an ellipsis marker; the extension is reattached untouched. The
Python default `max_length=64` is applied at every call site. -/
def sanitize_and_shorten_filename (filename : List Char) (max_length : Nat) : List Char :=
  let sanitized := replaceBad filename
  let name := (splitext sanitized).1
  let ext := (splitext sanitized).2
  if name.length > max_length then
    (name.take max_length ++ ['.', '.', '.']) ++ ext
  else
    name ++ ext

/-- Events of the retry-protected fetcher: `attempt i` is the `i`-th
`session.get` (0-based), `backoff s` a `time.sleep(s)` between attempts. -/
inductive FEv where
  | attempt (i : Nat)
  | backoff (secs : Nat)
deriving DecidableEq

/-- The body of `fetch_html`'s `for attempt in range(retries)` loop, with
`rem` the number of attempts still allowed.  `att i` is the environment's
outcome of the `i`-th GET: `some text` on success, `none` when the request
raises `requests.RequestException` (timeout, connection error or, via
`raise_for_status`, a non-2xx status). -/
def fetchGo (att : Nat → Option (List Char)) (retries : Nat) :
    Nat → Nat → Option (List Char) × List FEv
  | _, 0 => (none, [])
  | attempt, rem + 1 =>
    match att attempt with
    | some text => (some text, [.attempt attempt])
    | none =>
      let tail := fetchGo att retries (attempt + 1) rem
      if attempt < retries - 1 then
        (tail.1, .attempt attempt :: .backoff (2 ^ attempt) :: tail.2)
      else
        (tail.1, .attempt attempt :: tail.2)

/-- `fetch_html` (`src/wallhere.py` lines 58-71; the same function appears
verbatim in `src/wallhaven.py` lines 59-72 and `src/wallpapercat.py`):
attempt the GET up to `retries` times, sleeping `2 ** attempt` seconds after
each failed attempt except the last, and return `None` after exhaustion. -/
def fetch_html (att : Nat → Option (List Char)) (retries : Nat) :
    Option (List Char) × List FEv :=
  fetchGo att retries 0 retries

/-- The scrapers' `__init__` default for the `retries` parameter. -/
def default_retries : Nat := 3

/-- The event sequence the spec describes for an all-failing fetch: attempts
`a, a+1, ...` (`rem` of them) against a total of `retries`, each failed
attempt `i` followed by a `2 ^ i`-second backoff except the last overall. -/
def specEvsFrom (retries : Nat) : Nat → Nat → List FEv
  | _, 0 => []
  | a, rem + 1 =>
    if a < retries - 1 then
      .attempt a :: .backoff (2 ^ a) :: specEvsFrom retries (a + 1) rem
    else
      .attempt a :: specEvsFrom retries (a + 1) rem

/-- The full spec-side backoff schedule for `retries` failing attempts. -/
def specBackoffEvents (retries : Nat) : List FEv :=
  specEvsFrom retries 0 retries

/-- Number of GET attempts recorded in a fetcher trace. -/
def countAttempts (t : List FEv) : Nat :=
  t.countP (fun e => match e with | .attempt _ => true | _ => false)

/-- Events of the crawl and download layer: `fetch u` is a `fetch_html` call
against URL `u` (one or more GETs on the wire), `get u` the single streamed
GET of `download_image`, `wait` a `_polite_delay()` sleep, `inc` the
`self.downloaded_count += 1` statement. -/
inductive Ev where
  | fetch (url : List Char)
  | get (url : List Char)
  | wait
  | inc
deriving DecidableEq

/-- The filesystem, as the set (list) of paths of existing files. -/
abbrev Fs : Type := List (List Char)

/-- `os.path.basename`: the part after the last `'/'`. -/
def basenameF (l : List Char) : List Char :=
  l.drop (match lastIndexOf '/' l with | none => 0 | some i => i + 1)

/-- `.split('?')[0]`: the part before the first `'?'`. -/
def stripQuery (l : List Char) : List Char :=
  l.takeWhile (fun c => c ≠ '?')

/-- `os.path.join(d, f)` (posixpath, for the relative names the scrapers
build): an absolute `f` replaces `d`; otherwise a single separator is put
between a nonempty `d` and `f`. -/
def osJoin (d f : List Char) : List Char :=
  if f.head? = some '/' then f
  else if d = [] then f
  else if d.getLast? = some '/' then d ++ f
  else d ++ '/' :: f

/-- The destination path `BaseScraper.download_image` computes:
`os.path.join(save_dir, self._sanitize_and_shorten_filename(os.path.basename(img_url).split('?')[0]))`. -/
def base_save_path (img_url save_dir : List Char) : List Char :=
  osJoin save_dir (sanitize_and_shorten_filename (stripQuery (basenameF img_url)) 64)

/-- The destination path `WallHavenScraper.download_image` computes: the
basename stripped of its query string and sanitized, but never shortened. -/
def wh_save_path (img_url save_dir : List Char) : List Char :=
  osJoin save_dir (replaceBad (stripQuery (basenameF img_url)))

/-- Failure injection for one `download_image` call.  `nameFail` models an
exception raised before `save_path` is assigned (while deriving the
filename); `hasSession` is the `hasattr(self, 'session')` test; `getOk`
covers `session.get` together with `raise_for_status`; `streamOk` is the
chunked copy inside the `with open(save_path, 'wb')` block (a network or
disk error there leaves a partial file on disk). -/
structure DlEnv where
  nameFail : Bool
  hasSession : Bool
  getOk : Bool
  streamOk : Bool
deriving DecidableEq

/-- `BaseScraper.download_image` (`src/base.py` lines 33-72), with its
`except Exception` handler folded in.  Returns the Python boolean result,
the filesystem after the call, and the network events issued.  The handler
deletes the destination file only when `save_path` was assigned
(`'save_path' in locals()`) and the file exists; opening the file for
writing creates it, so a streaming failure erases the partial file again. -/
def download_image (env : DlEnv) (img_url save_dir : List Char) (fs : Fs) :
    Bool × Fs × List Ev :=
  if env.nameFail then (false, fs, [])
  else
    let p := base_save_path img_url save_dir
    if p ∈ fs then (true, fs, [])
    else if !env.hasSession then (false, fs, [])
    else if !env.getOk then (false, fs, [.get img_url])
    else if env.streamOk then (true, p :: fs, [.get img_url])
    else (false, List.erase (p :: fs) p, [.get img_url])

/-- `WallHavenScraper.download_image` (`src/wallhaven.py` lines 104-135):
same control flow as the base version but no `hasattr` guard, no name
shortening, and a cleanup branch without the `locals()` test (`save_path`
is always assigned before the first statement that can raise there). -/
def wallhaven_download_image (env : DlEnv) (img_url save_dir : List Char) (fs : Fs) :
    Bool × Fs × List Ev :=
  let p := wh_save_path img_url save_dir
  if p ∈ fs then (true, fs, [])
  else if !env.getOk then (false, fs, [.get img_url])
  else if env.streamOk then (true, p :: fs, [.get img_url])
  else (false, List.erase (p :: fs) p, [.get img_url])

/-- Exceptions of the operation-level download model. -/
inductive Exn where
  | nameError
  | attributeError
  | requestError
  | streamError
  | fileNotFound
deriving DecidableEq

/-- Reading a local variable: raises `NameError` when it was never assigned. -/
def readVar (v : Option (List Char)) : Except Exn (List Char) :=
  match v with
  | some a => .ok a
  | none => .error .nameError

/-- `os.remove`: raises when no file exists at the path. -/
def osRemove (p : List Char) (fs : Fs) : Except Exn Fs :=
  if p ∈ fs then .ok (List.erase fs p) else .error .fileNotFound

/-- The `try` block of `BaseScraper.download_image` at operation level: an
error carries the state of the local `save_path` (assigned or not) and the
filesystem at the raise point. -/
def dlTryOps (env : DlEnv) (img_url save_dir : List Char) (fs : Fs) :
    Except (Option (List Char) × Fs) (Bool × Fs) :=
  if env.nameFail then .error (none, fs)
  else
    let p := base_save_path img_url save_dir
    if p ∈ fs then .ok (true, fs)
    else if !env.hasSession then .error (some p, fs)
    else if !env.getOk then .error (some p, fs)
    else if env.streamOk then .ok (true, p :: fs)
    else .error (some p, p :: fs)

/-- The `except Exception` handler of `BaseScraper.download_image`: it first
tests `'save_path' in locals()`; only then does it read the variable, test
existence and remove.  Skipping the guard on an unassigned variable would
raise `NameError` (`readVar`), and removing a missing file would raise
(`osRemove`); the source's guards prevent both. -/
def cleanup (saveOpt : Option (List Char)) (fs : Fs) : Except Exn (Bool × Fs) :=
  if saveOpt.isSome then do
    let p ← readVar saveOpt
    if p ∈ fs then do
      let fs' ← osRemove p fs
      pure (false, fs')
    else
      pure (false, fs)
  else
    pure (false, fs)

/-- `BaseScraper.download_image` at operation level: the `try` body plus the
handler; a `.error` result would be an exception escaping to the caller. -/
def download_image_ops (env : DlEnv) (img_url save_dir : List Char) (fs : Fs) :
    Except Exn (Bool × Fs) :=
  match dlTryOps env img_url save_dir fs with
  | .ok r => .ok r
  | .error (saveOpt, fs') => cleanup saveOpt fs'

/-- Environment of one crawl run.  `page u` is the `fetch_html` outcome for
listing URL `u`; `links h` the parse `get_wallpaper_links(h)`; `detailHtml d`
the `fetch_html` outcome inside `get_image_url(d)`; `parseImg h` the image
URL extracted from detail html `h` (anchor or JSON-LD fallback, both pure
parses); `next h` the next-page URL found in `h`; `dlenv iu` the failure
injection for downloading image URL `iu`; `saveDir` the directory computed
once by `_get_save_path`; `whStyle` selects `WallHavenScraper`'s own
`download_image` over the inherited base version. -/
structure SiteEnv where
  page : List Char → Option (List Char)
  links : List Char → List (List Char)
  detailHtml : List Char → Option (List Char)
  parseImg : List Char → Option (List Char)
  next : List Char → Option (List Char)
  dlenv : List Char → DlEnv
  saveDir : List Char
  whStyle : Bool

/-- `get_image_url(detail_url)` (`src/wallhere.py` / `src/wallhaven.py`):
fetch the detail page (one `fetch_html` call, hence network traffic even on
failure) and parse the full-resolution URL out of it, `none` on any miss. -/
def getImg (se : SiteEnv) (detail_url : List Char) : Option (List Char) :=
  (se.detailHtml detail_url).bind se.parseImg

/-- The `self.download_image(img_url, save_dir)` call a run makes: the base
version for `WallHereScraper` and `WallpaperCatScraper`, wallhaven's own
for `WallHavenScraper`. -/
def siteDownload (se : SiteEnv) (img_url : List Char) (fs : Fs) :
    Bool × Fs × List Ev :=
  if se.whStyle then wallhaven_download_image (se.dlenv img_url) img_url se.saveDir fs
  else download_image (se.dlenv img_url) img_url se.saveDir fs

/-- The `for detail_url in wallpaper_links` loop of `WallHereScraper.run`
(`src/wallhere.py` lines 137-151) and `WallHavenScraper.run`: break when the
quota is met; otherwise resolve the item (a detail fetch), and if an image
URL was found sleep, download, and on success increment the count; a
trailing sleep closes every item.  Returns the final count, filesystem and
the events in order. -/
def processItems (se : SiteEnv) (quota : Nat) :
    List (List Char) → Nat → Fs → Nat × Fs × List Ev
  | [], c, fs => (c, fs, [])
  | d :: rest, c, fs =>
    if quota ≤ c then (c, fs, [])
    else
      match getImg se d with
      | some iu =>
        let dl := siteDownload se iu fs
        let c' := if dl.1 then c + 1 else c
        let tail := processItems se quota rest c' dl.2.1
        (tail.1, tail.2.1,
          .fetch d :: .wait :: dl.2.2 ++ (if dl.1 then [Ev.inc] else []) ++
            Ev.wait :: tail.2.2)
      | none =>
        let tail := processItems se quota rest c fs
        (tail.1, tail.2.1, .fetch d :: .wait :: tail.2.2)

/-- Crawl-session state: the downloaded count, the current page URL and the
filesystem. -/
structure St where
  count : Nat
  url : List Char
  fs : Fs
deriving DecidableEq

/-- One iteration of the `while` loop of `run` (entered with the guard
`downloaded_count < max_wallpapers` already checked): fetch the listing
page, stop on fetch failure or zero links, otherwise process the items and
follow the next-page link if one exists.  The boolean is `true` when the
loop continues. -/
def iterOnce (se : SiteEnv) (quota : Nat) (s : St) : St × Bool × List Ev :=
  match se.page s.url with
  | none => (s, false, [.fetch s.url])
  | some html =>
    if se.links html = [] then (s, false, [.fetch s.url])
    else
      let pi := processItems se quota (se.links html) s.count s.fs
      match se.next html with
      | some nextUrl => (⟨pi.1, nextUrl, pi.2.1⟩, true, .fetch s.url :: pi.2.2)
      | none => (⟨pi.1, s.url, pi.2.1⟩, false, .fetch s.url :: pi.2.2)

/-- Result of a fuelled run: `done` when the loop reached one of its exit
conditions, `fuelOut` when the fuel bound was hit first (the Python loop,
which has no such bound, would still be running). -/
inductive RunRes where
  | done (s : St)
  | fuelOut (s : St)
deriving DecidableEq

/-- `true` exactly on `done`. -/
def isDone : RunRes → Bool
  | .done _ => true
  | .fuelOut _ => false

/-- `WallHereScraper.run` / `WallHavenScraper.run` (`src/wallhere.py` lines
126-158, `src/wallhaven.py` lines 149-182): the `while
self.downloaded_count < self.max_wallpapers` loop, with an explicit fuel
bound standing in for the (unbounded) number of iterations. -/
def runFuel (se : SiteEnv) (quota : Nat) : Nat → St → RunRes × List Ev
  | 0, s => (.fuelOut s, [])
  | fuel + 1, s =>
    if quota ≤ s.count then (.done s, [])
    else
      let it := iterOnce se quota s
      if it.2.1 then
        let rest := runFuel se quota fuel it.1
        (rest.1, it.2.2 ++ rest.2)
      else
        (.done it.1, it.2.2)

/-- The `for img_url in wallpaper_links` loop of `WallpaperCatScraper.run`
(`src/wallpapercat.py` lines 126-137): the listing already carries the image
URLs, so there is no per-item detail fetch; each item is sleep, download
(counting successes), sleep. -/
def processItemsWC (se : SiteEnv) (quota : Nat) :
    List (List Char) → Nat → Fs → Nat × Fs × List Ev
  | [], c, fs => (c, fs, [])
  | iu :: rest, c, fs =>
    if quota ≤ c then (c, fs, [])
    else
      let dl := download_image (se.dlenv iu) iu se.saveDir fs
      let c' := if dl.1 then c + 1 else c
      let tail := processItemsWC se quota rest c' dl.2.1
      (tail.1, tail.2.1,
        Ev.wait :: dl.2.2 ++ (if dl.1 then [Ev.inc] else []) ++
          Ev.wait :: tail.2.2)

/-- One `while`-iteration of `WallpaperCatScraper.run` (the `detailHtml`,
`parseImg` and `whStyle` fields of the environment are unused here). -/
def iterOnceWC (se : SiteEnv) (quota : Nat) (s : St) : St × Bool × List Ev :=
  match se.page s.url with
  | none => (s, false, [.fetch s.url])
  | some html =>
    if se.links html = [] then (s, false, [.fetch s.url])
    else
      let pi := processItemsWC se quota (se.links html) s.count s.fs
      match se.next html with
      | some nextUrl => (⟨pi.1, nextUrl, pi.2.1⟩, true, .fetch s.url :: pi.2.2)
      | none => (⟨pi.1, s.url, pi.2.1⟩, false, .fetch s.url :: pi.2.2)

/-- `WallpaperCatScraper.run` (`src/wallpapercat.py` lines 113-148) with a
fuel bound on the `while` loop. -/
def runFuelWC (se : SiteEnv) (quota : Nat) : Nat → St → RunRes × List Ev
  | 0, s => (.fuelOut s, [])
  | fuel + 1, s =>
    if quota ≤ s.count then (.done s, [])
    else
      let it := iterOnceWC se quota s
      if it.2.1 then
        let rest := runFuelWC se quota fuel it.1
        (rest.1, it.2.2 ++ rest.2)
      else
        (.done it.1, it.2.2)

/-- Network events of the crawl layer: `fetch_html` calls and download GETs. -/
def isNet : Ev → Bool
  | .fetch _ => true
  | .get _ => true
  | _ => false

/-- Scan a trace keeping the running `downloaded_count` (starting at `c`,
bumped at each `inc` event) and check that every network event happens while
the count is still below the quota. -/
def netOkFrom (quota : Nat) : Nat → List Ev → Bool
  | _, [] => true
  | c, e :: rest =>
    (if isNet e then decide (c < quota) else true) &&
      netOkFrom quota (if e = Ev.inc then c + 1 else c) rest

/-- Number of `inc` events in a trace. -/
def countIncs (t : List Ev) : Nat :=
  t.countP (fun e => e = Ev.inc)

/-- `true` exactly on download-GET events. -/
def isGetEv : Ev → Bool
  | .get _ => true
  | _ => false

/-- Scan a trace and check that every download GET is immediately preceded
by a rate-limiter wait; the boolean argument records whether the previous
event was a wait. -/
def waitBeforeGets : Bool → List Ev → Bool
  | _, [] => true
  | prevWait, e :: rest =>
    (if isGetEv e then prevWait else true) && waitBeforeGets (e = Ev.wait) rest

/-- Scan a trace with state (a network event was seen, a wait was seen since
the last network event) and check that between every two consecutive network
events at least one wait occurs — the spec's rate-limiting requirement. -/
def waitBetweenNets : Bool → Bool → List Ev → Bool
  | _, _, [] => true
  | seenNet, waitSince, e :: rest =>
    if isNet e then (!seenNet || waitSince) && waitBetweenNets true false rest
    else waitBetweenNets seenNet (waitSince || (e = Ev.wait)) rest

/-- `stopsWithin se quota s n`: starting from state `s`, the crawl loop
reaches one of its exit conditions (quota met, listing fetch failed, zero
items, or no next-page link) within `n + 1` iterations. -/
def stopsWithin (se : SiteEnv) (quota : Nat) : St → Nat → Bool
  | s, 0 => decide (quota ≤ s.count) || !(iterOnce se quota s).2.1
  | s, n + 1 =>
    decide (quota ≤ s.count) || !(iterOnce se quota s).2.1 ||
      stopsWithin se quota (iterOnce se quota s).1 n

/-- A 65-character base name with an extension, exceeding the 64-character
truncation threshold. -/
def exampleLongName : List Char := List.replicate 65 'a' ++ ['.', 'j']

/-- A crawl environment whose single listing page `A` lists one item whose
resolution fails, and whose next-page link points back to `A` itself: the
shape of a listing page that links to an already-visited URL. -/
def envC5 : SiteEnv where
  page := fun u => if u = ['A'] then some ['H'] else none
  links := fun h => if h = ['H'] then [['d']] else []
  detailHtml := fun _ => none
  parseImg := fun _ => none
  next := fun h => if h = ['H'] then some ['A'] else none
  dlenv := fun _ => ⟨false, true, true, true⟩
  saveDir := ['s']
  whStyle := false

/-- A crawl environment with one listing page `P` holding one item `d` that
resolves to image `I` and downloads successfully, and no next page. -/
def envC6 : SiteEnv where
  page := fun u => if u = ['P'] then some ['H'] else none
  links := fun h => if h = ['H'] then [['d']] else []
  detailHtml := fun d => if d = ['d'] then some ['X'] else none
  parseImg := fun h => if h = ['X'] then some ['I'] else none
  next := fun _ => none
  dlenv := fun _ => ⟨false, true, true, true⟩
  saveDir := ['s']
  whStyle := false

/-- A crawl environment whose listing fetch fails outright: the loop stops
in its first iteration. -/
def envStop : SiteEnv where
  page := fun _ => none
  links := fun _ => []
  detailHtml := fun _ => none
  parseImg := fun _ => none
  next := fun _ => none
  dlenv := fun _ => ⟨false, true, true, true⟩
  saveDir := ['s']
  whStyle := false

-- Sanity checks of the embedding on concrete values (kept as examples).
example : replaceBad ('a' :: '?' :: 'b' :: []) = ('a' :: '_' :: 'b' :: []) := by decide
example : splitext ('a' :: '.' :: 'b' :: []) = (['a'], ['.', 'b']) := by decide
example : splitext ('.' :: 'b' :: []) = (['.', 'b'], []) := by decide
example :
    sanitize_and_shorten_filename ('a' :: '?' :: '.' :: 'p' :: []) 64 =
      ('a' :: '_' :: '.' :: 'p' :: []) := by decide

/-! ### Helper lemmas about the sanitizer -/

theorem noBad_replaceBad (l : List Char) : noBad (replaceBad l) = true := by
  unfold noBad replaceBad
  rw [List.all_map]
  apply List.all_eq_true.2
  intro c _
  show (!(isBadChar (if isBadChar c then '_' else c))) = true
  by_cases h : isBadChar c = true
  · rw [if_pos h]
    decide
  · rw [if_neg h]
    simp at h
    simp [h]

theorem slash_not_mem_replaceBad (l : List Char) : '/' ∉ replaceBad l := by
  unfold replaceBad
  intro h
  rcases List.mem_map.1 h with ⟨c, _, heq⟩
  by_cases hb : isBadChar c = true
  · rw [if_pos hb] at heq
    exact absurd heq (by decide)
  · rw [if_neg hb] at heq
    subst heq
    exact absurd (by decide : isBadChar '/' = true) hb

theorem noBad_append (a b : List Char) : noBad (a ++ b) = (noBad a && noBad b) := by
  simp [noBad, List.all_append]

theorem noBad_take (l : List Char) (n : Nat) (h : noBad l = true) :
    noBad (l.take n) = true := by
  unfold noBad at *
  exact List.all_eq_true.2 fun c hc => List.all_eq_true.1 h c (List.take_subset n l hc)

theorem noBad_drop (l : List Char) (n : Nat) (h : noBad l = true) :
    noBad (l.drop n) = true := by
  unfold noBad at *
  exact List.all_eq_true.2 fun c hc => List.all_eq_true.1 h c (List.drop_subset n l hc)

theorem splitext_cases (l : List Char) :
    splitext l = (l, []) ∨
      ∃ d, lastIndexOf '.' l = some d ∧ splitext l = (l.take d, l.drop d) := by
  unfold splitext
  rcases hd : lastIndexOf '.' l with _ | d
  · exact Or.inl rfl
  · dsimp only
    split
    · exact Or.inr ⟨d, rfl, rfl⟩
    · exact Or.inl rfl

theorem splitext_concat (l : List Char) : (splitext l).1 ++ (splitext l).2 = l := by
  rcases splitext_cases l with h | ⟨d, _, h⟩ <;> rw [h] <;> simp

theorem noBad_splitext_fst (l : List Char) (h : noBad l = true) :
    noBad (splitext l).1 = true := by
  rcases splitext_cases l with he | ⟨d, _, he⟩ <;> rw [he]
  · exact h
  · exact noBad_take l d h

theorem noBad_splitext_snd (l : List Char) (h : noBad l = true) :
    noBad (splitext l).2 = true := by
  rcases splitext_cases l with he | ⟨d, _, he⟩ <;> rw [he]
  · rfl
  · exact noBad_drop l d h

theorem replaceBad_idem (l : List Char) : replaceBad (replaceBad l) = replaceBad l := by
  induction l with
  | nil => rfl
  | cons a l ih =>
    simp only [replaceBad, List.map_cons] at ih ⊢
    rw [ih]
    congr 1
    by_cases hb : isBadChar a = true
    · rw [if_pos hb]
      decide
    · rw [if_neg hb, if_neg hb]

theorem replaceBad_of_noBad (l : List Char) (h : noBad l = true) : replaceBad l = l := by
  induction l with
  | nil => rfl
  | cons a l ih =>
    rw [noBad, List.all_cons, Bool.and_eq_true] at h
    have ha : isBadChar a = false := by
      rcases h with ⟨h1, _⟩
      simpa using h1
    have hl : noBad l = true := h.2
    simp [replaceBad, ha] at ih ⊢
    exact ih hl

theorem lastIndexOf_of_notMem (c : Char) (l : List Char) (h : c ∉ l) :
    lastIndexOf c l = none := by
  induction l with
  | nil => rfl
  | cons a l ih =>
    have h1 : c ∉ l := fun hc => h (List.mem_cons_of_mem a hc)
    have h2 : ¬(a = c) := fun hc => h (hc ▸ List.mem_cons_self a l)
    simp [lastIndexOf, ih h1, h2]

theorem replaceBadChar_eq_dot (a : Char) :
    ((if isBadChar a then '_' else a) = '.') ↔ (a = '.') := by
  by_cases hb : isBadChar a = true
  · rw [if_pos hb]
    constructor
    · intro h; exact absurd h (by decide)
    · intro h; subst h; exact absurd hb (by decide)
  · rw [if_neg hb]

theorem lastIndexOf_dot_replaceBad (l : List Char) :
    lastIndexOf '.' (replaceBad l) = lastIndexOf '.' l := by
  induction l with
  | nil => rfl
  | cons a l ih =>
    show lastIndexOf '.' ((if isBadChar a then '_' else a) :: replaceBad l) = _
    rw [lastIndexOf, lastIndexOf, ih]
    rcases lastIndexOf '.' l with _ | d
    · by_cases hd : a = '.'
      · rw [if_pos (replaceBadChar_eq_dot a |>.2 hd), if_pos hd]
      · rw [if_neg (fun h => hd (replaceBadChar_eq_dot a |>.1 h)), if_neg hd]
    · rfl

theorem replaceBad_take (l : List Char) (n : Nat) :
    (replaceBad l).take n = replaceBad (l.take n) := by
  unfold replaceBad
  exact (List.map_take _ _ _).symm

theorem replaceBad_drop (l : List Char) (n : Nat) :
    (replaceBad l).drop n = replaceBad (l.drop n) := by
  unfold replaceBad
  exact (List.map_drop _ _ _).symm

theorem any_ne_dot_replaceBad (l : List Char) :
    (replaceBad l).any (fun c => c ≠ '.') = l.any (fun c => c ≠ '.') := by
  induction l with
  | nil => rfl
  | cons a l ih =>
    show ((if isBadChar a then '_' else a) :: replaceBad l).any _ = _
    rw [List.any_cons, List.any_cons, ih]
    by_cases hd : a = '.'
    · have : (if isBadChar a then '_' else a) = '.' := replaceBadChar_eq_dot a |>.2 hd
      rw [this, hd]
    · have : ¬((if isBadChar a then '_' else a) = '.') :=
        fun h => hd (replaceBadChar_eq_dot a |>.1 h)
      simp [this, hd]

theorem splitext_replaceBad (f : List Char) (hs : '/' ∉ f) :
    splitext (replaceBad f) =
      (replaceBad (splitext f).1, replaceBad (splitext f).2) := by
  have h1 : lastIndexOf '/' f = none := lastIndexOf_of_notMem _ _ hs
  have h2 : lastIndexOf '/' (replaceBad f) = none :=
    lastIndexOf_of_notMem _ _ (slash_not_mem_replaceBad f)
  have h3 : lastIndexOf '.' (replaceBad f) = lastIndexOf '.' f :=
    lastIndexOf_dot_replaceBad f
  unfold splitext
  rw [h3]
  rcases hd : lastIndexOf '.' f with _ | d
  · simp [replaceBad]
  · rw [h1, h2]
    dsimp only
    have hcond :
        (((replaceBad f).drop 0).take (d - 0)).any (fun c => c ≠ '.') =
          ((f.drop 0).take (d - 0)).any (fun c => c ≠ '.') := by
      rw [List.drop_zero, List.drop_zero, replaceBad_take]
      exact any_ne_dot_replaceBad (f.take (d - 0))
    by_cases hc : (((f.drop 0).take (d - 0)).any (fun c => c ≠ '.')) = true
    · rw [if_pos ⟨Nat.zero_le d, hcond ▸ hc⟩, if_pos ⟨Nat.zero_le d, hc⟩]
      rw [replaceBad_take, replaceBad_drop]
    · rw [if_neg fun hx => hc (hcond ▸ hx.2), if_neg fun hx => hc hx.2]
      simp [replaceBad]

/-! ### Claims about the filename sanitizer (C7, C8, C9) -/

/-- C7. Filename sanitization is total: for every input filename containing
one of the characters of the class, the output contains none of them (each
is replaced by `_`), and the extension is preserved in the output: the
output ends with the extension `os.path.splitext` assigns the sanitized
name, which — for inputs without a path separator and whose own extension
is free of the illegal characters — is exactly the input's extension. -/
theorem sanitize_total_and_ext_preserved (f : List Char) (h : noBad f = false) :
    noBad (sanitize_and_shorten_filename f 64) = true ∧
    (∃ pre, sanitize_and_shorten_filename f 64 = pre ++ (splitext (replaceBad f)).2) ∧
    ('/' ∉ f → noBad (splitext f).2 = true →
      (splitext (replaceBad f)).2 = (splitext f).2) := by
  refine ⟨?_, ?_, ?_⟩
  · unfold sanitize_and_shorten_filename
    dsimp only
    have hn := noBad_splitext_fst _ (noBad_replaceBad f)
    have he := noBad_splitext_snd _ (noBad_replaceBad f)
    split
    · rw [noBad_append, noBad_append, noBad_take _ _ hn, he]
      decide
    · rw [noBad_append, hn, he]
      rfl
  · unfold sanitize_and_shorten_filename
    dsimp only
    split
    · exact ⟨_, rfl⟩
    · exact ⟨_, rfl⟩
  · intro hs hnb
    rw [splitext_replaceBad f hs]
    exact replaceBad_of_noBad _ hnb

/-- C7 witness: `a?.p` contains an illegal character; its sanitization is
clean and keeps the `.p` extension. -/
theorem sanitize_total_and_ext_preserved_witness :
    noBad ['a', '?', '.', 'p'] = false ∧
    (noBad (sanitize_and_shorten_filename ['a', '?', '.', 'p'] 64) = true ∧
     (∃ pre, sanitize_and_shorten_filename ['a', '?', '.', 'p'] 64 =
        pre ++ (splitext (replaceBad ['a', '?', '.', 'p'])).2) ∧
     ('/' ∉ ['a', '?', '.', 'p'] → noBad (splitext ['a', '?', '.', 'p']).2 = true →
        (splitext (replaceBad ['a', '?', '.', 'p'])).2 =
          (splitext ['a', '?', '.', 'p']).2)) :=
  ⟨by decide, sanitize_total_and_ext_preserved ['a', '?', '.', 'p'] (by decide)⟩

/-- C8. For every filename whose sanitized base name exceeds 64 characters,
the output is exactly the first 64 characters of the base name, the
ellipsis marker, and the untruncated extension; the kept base-name part has
length at most 64. -/
theorem truncation_bounds_base_name (f : List Char)
    (h : ((splitext (replaceBad f)).1).length > 64) :
    sanitize_and_shorten_filename f 64 =
      (((splitext (replaceBad f)).1).take 64 ++ ['.', '.', '.']) ++
        (splitext (replaceBad f)).2 ∧
    (((splitext (replaceBad f)).1).take 64).length ≤ 64 := by
  constructor
  · unfold sanitize_and_shorten_filename
    dsimp only
    rw [if_pos h]
  · rw [List.length_take]
    exact Nat.min_le_left _ _

/-- C8 witness: a 65-character base name with extension `.j` is truncated
to 64 characters, the extension surviving. -/
theorem truncation_bounds_base_name_witness :
    ((splitext (replaceBad exampleLongName)).1).length > 64 ∧
    (sanitize_and_shorten_filename exampleLongName 64 =
      (((splitext (replaceBad exampleLongName)).1).take 64 ++ ['.', '.', '.']) ++
        (splitext (replaceBad exampleLongName)).2 ∧
     (((splitext (replaceBad exampleLongName)).1).take 64).length ≤ 64) :=
  ⟨by decide, truncation_bounds_base_name exampleLongName (by decide)⟩

/-- C9 counterexample: `_sanitize_and_shorten_filename` is not idempotent.
On 65 letters `a` with no extension the first application appends the
ellipsis `...`; the second application then takes the final dot for an
extension, truncates the 66-character remaining name, and appends both the
marker and that dot, producing a different (longer) result. -/
theorem sanitize_not_idempotent_on_long_extensionless :
    sanitize_and_shorten_filename
        (sanitize_and_shorten_filename (List.replicate 65 'a') 64) 64 ≠
      sanitize_and_shorten_filename (List.replicate 65 'a') 64 := by
  decide

/-- C9 amended: the sanitizer is idempotent on every filename it does not
truncate, i.e. whose sanitized base name has at most 64 characters (then
the result is just the sanitized input, which sanitizes to itself);
truncation can break idempotence, as the counterexample shows. -/
theorem sanitize_idempotent_without_truncation (f : List Char)
    (h : ((splitext (replaceBad f)).1).length ≤ 64) :
    sanitize_and_shorten_filename (sanitize_and_shorten_filename f 64) 64 =
      sanitize_and_shorten_filename f 64 := by
  have hne : ¬(((splitext (replaceBad f)).1).length > 64) := by omega
  have h1 : sanitize_and_shorten_filename f 64 = replaceBad f := by
    unfold sanitize_and_shorten_filename
    dsimp only
    rw [if_neg hne]
    exact splitext_concat _
  rw [h1]
  unfold sanitize_and_shorten_filename
  dsimp only
  rw [replaceBad_idem]
  rw [if_neg hne]
  exact splitext_concat _

/-- C9 amended witness: a short name passes through twice unchanged. -/
theorem sanitize_idempotent_without_truncation_witness :
    ((splitext (replaceBad ['b', '*', '.', 'p'])).1).length ≤ 64 ∧
    sanitize_and_shorten_filename
        (sanitize_and_shorten_filename ['b', '*', '.', 'p'] 64) 64 =
      sanitize_and_shorten_filename ['b', '*', '.', 'p'] 64 :=
  ⟨by decide, sanitize_idempotent_without_truncation ['b', '*', '.', 'p'] (by decide)⟩

/-! ### Claim about the retrying fetcher (C1) -/

theorem fetchGo_allFail (att : Nat → Option (List Char)) (retries : Nat) :
    ∀ rem a, (∀ i, a ≤ i → i < a + rem → att i = none) →
      fetchGo att retries a rem = (none, specEvsFrom retries a rem) := by
  intro rem
  induction rem with
  | zero =>
    intro a _
    rfl
  | succ n ih =>
    intro a h
    have ha : att a = none := h a (Nat.le_refl a) (by omega)
    have ih' := ih (a + 1) (fun i h1 h2 => h i (by omega) (by omega))
    rw [fetchGo, specEvsFrom, ha]
    dsimp only
    rw [ih']
    by_cases hc : a < retries - 1
    · rw [if_pos hc, if_pos hc]
    · rw [if_neg hc, if_neg hc]

theorem countAttempts_specEvsFrom (retries : Nat) :
    ∀ rem a, countAttempts (specEvsFrom retries a rem) = rem := by
  intro rem
  induction rem with
  | zero =>
    intro a
    rfl
  | succ n ih =>
    intro a
    rw [specEvsFrom]
    by_cases hc : a < retries - 1
    · rw [if_pos hc]
      simp only [countAttempts, List.countP_cons] at ih ⊢
      rw [ih (a + 1)]
      simp
    · rw [if_neg hc]
      simp only [countAttempts, List.countP_cons] at ih ⊢
      rw [ih (a + 1)]
      simp

/-- C1. For every URL for which every GET attempt fails, `fetch_html` makes
exactly `retries` attempts (the `__init__` default being 3), sleeps
`2 ^ attemptIndex` seconds after each failed attempt except the last
(`specBackoffEvents` is precisely that schedule), and returns `None`; the
`except requests.RequestException` arm means no exception reaches the
caller, modelled by the call being a total function into `Option`. -/
theorem fetch_html_exhausts_exactly_retries (att : Nat → Option (List Char))
    (retries : Nat) (h : ∀ i, i < retries → att i = none) :
    (fetch_html att retries).1 = none ∧
    (fetch_html att retries).2 = specBackoffEvents retries ∧
    countAttempts (fetch_html att retries).2 = retries := by
  have hgo := fetchGo_allFail att retries retries 0 (fun i _ h2 => h i (by omega))
  unfold fetch_html specBackoffEvents
  rw [hgo]
  exact ⟨rfl, rfl, countAttempts_specEvsFrom retries retries 0⟩

/-- C1 witness: with the default `retries = 3` and every attempt failing,
the fetcher issues exactly attempts 0, 1, 2 with backoffs of 1 and 2
seconds between them, and returns `None`. -/
theorem fetch_html_exhausts_exactly_retries_witness :
    (∀ i, i < default_retries → (fun _ => (none : Option (List Char))) i = none) ∧
    ((fetch_html (fun _ => none) default_retries).1 = none ∧
     (fetch_html (fun _ => none) default_retries).2 =
       specBackoffEvents default_retries ∧
     countAttempts (fetch_html (fun _ => none) default_retries).2 =
       default_retries) ∧
    specBackoffEvents default_retries =
      [FEv.attempt 0, FEv.backoff 1, FEv.attempt 1, FEv.backoff 2, FEv.attempt 2] :=
  ⟨fun _ _ => rfl,
   fetch_html_exhausts_exactly_retries (fun _ => none) default_retries
     (fun _ _ => rfl),
   by decide⟩

/-! ### Claims about the downloader (C3, C4, C10) -/

theorem download_image_evs (env : DlEnv) (u d : List Char) (fs : Fs) :
    (download_image env u d fs).2.2 = [] ∨
      (download_image env u d fs).2.2 = [Ev.get u] := by
  by_cases hnf : env.nameFail <;> by_cases hp : base_save_path u d ∈ fs <;>
    by_cases hhs : env.hasSession <;> by_cases hgo : env.getOk <;>
    by_cases hso : env.streamOk <;>
    simp [download_image, hnf, hp, hhs, hgo, hso]

theorem wallhaven_download_image_evs (env : DlEnv) (u d : List Char) (fs : Fs) :
    (wallhaven_download_image env u d fs).2.2 = [] ∨
      (wallhaven_download_image env u d fs).2.2 = [Ev.get u] := by
  by_cases hp : wh_save_path u d ∈ fs <;> by_cases hgo : env.getOk <;>
    by_cases hso : env.streamOk <;>
    simp [wallhaven_download_image, hp, hgo, hso]

theorem siteDownload_evs (se : SiteEnv) (u : List Char) (fs : Fs) :
    (siteDownload se u fs).2.2 = [] ∨ (siteDownload se u fs).2.2 = [Ev.get u] := by
  unfold siteDownload
  split
  · exact wallhaven_download_image_evs _ _ _ _
  · exact download_image_evs _ _ _ _

/-- C3. When a failure hits after the destination file was opened for
writing (GET succeeded, streaming failed, and the file was not already
present), both `BaseScraper.download_image` and
`WallHavenScraper.download_image` return `False` with the partial file
deleted; and in general a file existing at the destination path after the
call was either already there before it (a complete earlier download) or
the call returned `True` after a fully successful streamed write — the
failure is a return value, never an exception. -/
theorem partial_file_deleted_on_failure :
    (∀ (env : DlEnv) (u d : List Char) (fs : Fs),
      env.nameFail = false → env.hasSession = true → env.getOk = true →
      env.streamOk = false → base_save_path u d ∉ fs → wh_save_path u d ∉ fs →
      ((download_image env u d fs).1 = false ∧
        base_save_path u d ∉ (download_image env u d fs).2.1) ∧
      ((wallhaven_download_image env u d fs).1 = false ∧
        wh_save_path u d ∉ (wallhaven_download_image env u d fs).2.1)) ∧
    (∀ (env : DlEnv) (u d : List Char) (fs : Fs),
      (base_save_path u d ∈ (download_image env u d fs).2.1 →
        base_save_path u d ∈ fs ∨
          ((download_image env u d fs).1 = true ∧ env.getOk = true ∧
            env.streamOk = true)) ∧
      (wh_save_path u d ∈ (wallhaven_download_image env u d fs).2.1 →
        wh_save_path u d ∈ fs ∨
          ((wallhaven_download_image env u d fs).1 = true ∧ env.getOk = true ∧
            env.streamOk = true))) := by
  constructor
  · intro env u d fs hnf hhs hgo hso hpb hpw
    refine ⟨⟨?_, ?_⟩, ⟨?_, ?_⟩⟩ <;>
      simp [download_image, wallhaven_download_image, hnf, hhs, hgo, hso, hpb, hpw,
        List.erase_cons_head]
  · intro env u d fs
    constructor
    · intro hmem
      by_cases hnf : env.nameFail <;> by_cases hp : base_save_path u d ∈ fs <;>
        by_cases hhs : env.hasSession <;> by_cases hgo : env.getOk <;>
        by_cases hso : env.streamOk <;>
        simp [download_image, hnf, hp, hhs, hgo, hso, List.erase_cons_head] at hmem ⊢
    · intro hmem
      by_cases hp : wh_save_path u d ∈ fs <;> by_cases hgo : env.getOk <;>
        by_cases hso : env.streamOk <;>
        simp [wallhaven_download_image, hp, hgo, hso, List.erase_cons_head] at hmem ⊢

/-- C4. When a file already exists at the computed destination path,
`download_image` returns `True` (the skip outcome) with the filesystem
untouched and no network event — no HTTP GET for the image bytes; and in
the crawl loop a `True` result makes the caller increment
`downloaded_count` to `c + 1` (the `inc` event in the trace), so the skip
counts toward quota satisfaction. -/
theorem skip_no_network_and_counts :
    (∀ (env : DlEnv) (u dir : List Char) (fs : Fs),
      env.nameFail = false → base_save_path u dir ∈ fs →
      download_image env u dir fs = (true, fs, [])) ∧
    (∀ (se : SiteEnv) (quota : Nat) (d iu : List Char) (rest : List (List Char))
        (c : Nat) (fs : Fs),
      c < quota → getImg se d = some iu → (siteDownload se iu fs).1 = true →
      processItems se quota (d :: rest) c fs =
        ((processItems se quota rest (c + 1) (siteDownload se iu fs).2.1).1,
         (processItems se quota rest (c + 1) (siteDownload se iu fs).2.1).2.1,
         Ev.fetch d :: Ev.wait :: (siteDownload se iu fs).2.2 ++
           Ev.inc :: Ev.wait ::
             (processItems se quota rest (c + 1) (siteDownload se iu fs).2.1).2.2)) := by
  constructor
  · intro env u dir fs hnf hmem
    simp [download_image, hnf, hmem]
  · intro se quota d iu rest c fs hc himg hdl
    simp only [processItems]
    rw [if_neg (Nat.not_le.2 hc)]
    simp only [himg]
    simp only [hdl]
    simp

/-- C10. `BaseScraper.download_image` is total at its public boundary: at
operation level (where reading an unassigned local would raise `NameError`
and removing a missing file would raise) the function still always returns
`Except.ok` with exactly the boolean and filesystem of the direct model —
no exception escapes — and a failure injected before `save_path` is
assigned yields `ok (false, fs)` with the filesystem untouched, because the
cleanup branch tests `'save_path' in locals()` before anything else. -/
theorem download_image_no_exception_escapes :
    (∀ (env : DlEnv) (u d : List Char) (fs : Fs),
      download_image_ops env u d fs =
        Except.ok ((download_image env u d fs).1, (download_image env u d fs).2.1)) ∧
    (∀ (env : DlEnv) (u d : List Char) (fs : Fs),
      env.nameFail = true → download_image_ops env u d fs = Except.ok (false, fs)) := by
  constructor
  · intro env u d fs
    by_cases hnf : env.nameFail <;> by_cases hp : base_save_path u d ∈ fs <;>
      by_cases hhs : env.hasSession <;> by_cases hgo : env.getOk <;>
      by_cases hso : env.streamOk <;>
      simp [download_image, download_image_ops, dlTryOps, cleanup, readVar, osRemove,
        hnf, hp, hhs, hgo, hso, List.erase_cons_head, pure, Except.pure, bind,
        Except.bind]
  · intro env u d fs h
    simp [download_image_ops, dlTryOps, cleanup, h, pure, Except.pure]

/-! ### Claims about the crawl loop (C5, C6, C2) -/

/-- C5 counterexample: the crawl loop keeps no set of visited URLs.  In
`envC5` page `A` lists one item (whose resolution fails, so
`downloaded_count` never grows) and its next-page link points back to `A`:
one whole `while`-iteration maps the state `⟨0, A, ∅⟩` to itself and asks
to continue, so the page cursor revisits a state, and the run is still
going after 50 iterations (and, by the self-loop, after any number) — the
loop never reaches a terminal condition. -/
theorem crawl_cycle_counterexample :
    iterOnce envC5 5 ⟨0, ['A'], []⟩ =
      (⟨0, ['A'], []⟩, true, [Ev.fetch ['A'], Ev.fetch ['d'], Ev.wait]) ∧
    (0 : Nat) < 5 ∧
    (runFuel envC5 5 50 ⟨0, ['A'], []⟩).1 = RunRes.fuelOut ⟨0, ['A'], []⟩ :=
  ⟨by decide, by decide, by decide⟩

/-- C5 amended: a crawl run terminates whenever it reaches one of its
terminal conditions — quota met, a listing fetch failure, a page with zero
items, or a page with no next link — within finitely many iterations
(`stopsWithin`); with a cyclic next-page chain and no successful downloads
none of these conditions is ever reached and the loop runs forever, the
page cursor revisiting states. -/
theorem crawl_terminates_when_stop_reached :
    ∀ (se : SiteEnv) (quota n : Nat) (s : St),
      stopsWithin se quota s n = true →
      isDone (runFuel se quota (n + 1) s).1 = true := by
  intro se quota n
  induction n with
  | zero =>
    intro s h
    rw [stopsWithin] at h
    rw [runFuel]
    by_cases hq : quota ≤ s.count
    · rw [if_pos hq]
      rfl
    · rw [if_neg hq]
      have hc : (iterOnce se quota s).2.1 = false := by
        simp [hq] at h
        exact h
      simp only [hc]
      rfl
  | succ n ih =>
    intro s h
    rw [stopsWithin] at h
    rw [runFuel]
    by_cases hq : quota ≤ s.count
    · rw [if_pos hq]
      rfl
    · rw [if_neg hq]
      by_cases hc : (iterOnce se quota s).2.1 = true
      · simp only [hc]
        have hs : stopsWithin se quota (iterOnce se quota s).1 n = true := by
          simp [hq, hc] at h
          exact h
        exact ih (iterOnce se quota s).1 hs
      · have hc' : (iterOnce se quota s).2.1 = false := by
          simp at hc
          exact hc
        simp only [hc']
        rfl

/-- C5 amended witness: with a failing listing fetch the loop stops in its
first iteration. -/
theorem crawl_terminates_when_stop_reached_witness :
    stopsWithin envStop 5 ⟨0, ['A'], []⟩ 0 = true ∧
    isDone (runFuel envStop 5 (0 + 1) ⟨0, ['A'], []⟩).1 = true :=
  ⟨by decide, crawl_terminates_when_stop_reached envStop 5 0 ⟨0, ['A'], []⟩ (by decide)⟩

/-- C6 counterexample: a concrete successful run whose trace opens with the
listing fetch immediately followed by the first item's detail fetch — two
consecutive network operations against the same site with no rate-limiter
wait between them, because `run` calls `get_image_url` before any
`_polite_delay()`. -/
theorem no_wait_between_listing_and_detail_fetch :
    waitBetweenNets false false (runFuel envC6 5 2 ⟨0, ['P'], []⟩).2 = false ∧
    (runFuel envC6 5 2 ⟨0, ['P'], []⟩).2 =
      [Ev.fetch ['P'], Ev.fetch ['d'], Ev.wait, Ev.get ['I'], Ev.inc, Ev.wait] :=
  ⟨by decide, by decide⟩

theorem waitBeforeGets_append (A B : List Ev) :
    ∀ p, waitBeforeGets p A = true → (∀ q, waitBeforeGets q B = true) →
      waitBeforeGets p (A ++ B) = true := by
  induction A with
  | nil =>
    intro p _ hB
    exact hB p
  | cons e A ih =>
    intro p hA hB
    rw [List.cons_append, waitBeforeGets]
    rw [waitBeforeGets] at hA
    rw [Bool.and_eq_true] at hA ⊢
    exact ⟨hA.1, ih _ hA.2 hB⟩

theorem waitBeforeGets_processItems (se : SiteEnv) (quota : Nat) :
    ∀ (links : List (List Char)) (c : Nat) (fs : Fs) (p : Bool),
      waitBeforeGets p (processItems se quota links c fs).2.2 = true := by
  intro links
  induction links with
  | nil =>
    intro c fs p
    rfl
  | cons d rest ih =>
    intro c fs p
    simp only [processItems]
    by_cases hq : quota ≤ c
    · rw [if_pos hq]
      rfl
    · rw [if_neg hq]
      rcases hg : getImg se d with _ | iu
    <;> simp only [hg]
      · simp [waitBeforeGets, isGetEv, ih]
      · rcases siteDownload_evs se iu fs with he | he <;>
          by_cases hb : (siteDownload se iu fs).1 = true <;>
          simp [he, hb, waitBeforeGets, isGetEv, ih]

theorem waitBeforeGets_iterOnce (se : SiteEnv) (quota : Nat) (s : St) (p : Bool) :
    waitBeforeGets p (iterOnce se quota s).2.2 = true := by
  unfold iterOnce
  rcases hp : se.page s.url with _ | html
  · simp [waitBeforeGets, isGetEv]
  · by_cases hl : se.links html = []
    · simp [hl, waitBeforeGets, isGetEv]
    · simp only [hl]
      rcases hn : se.next html with _ | nu <;>
        simp [hn, hl, waitBeforeGets, isGetEv, waitBeforeGets_processItems]

theorem waitBeforeGets_runFuel (se : SiteEnv) (quota : Nat) :
    ∀ (fuel : Nat) (s : St) (p : Bool),
      waitBeforeGets p (runFuel se quota fuel s).2 = true := by
  intro fuel
  induction fuel with
  | zero =>
    intro s p
    rfl
  | succ n ih =>
    intro s p
    rw [runFuel]
    by_cases hq : quota ≤ s.count
    · rw [if_pos hq]
      rfl
    · rw [if_neg hq]
      by_cases hc : (iterOnce se quota s).2.1 = true
      · simp only [hc, if_true]
        exact waitBeforeGets_append _ _ p (waitBeforeGets_iterOnce se quota s p)
          (fun q => ih _ q)
      · have hc' : (iterOnce se quota s).2.1 = false := by
          simp at hc
          exact hc
        simp only [hc']
        exact waitBeforeGets_iterOnce se quota s p

/-- C6 amended: the rate limiter is not invoked before resolving an item —
the listing fetch and the first detail fetch are back-to-back, as the
counterexample's trace shows — but every image-download GET is immediately
preceded by a `_polite_delay()` wait, in every run against every
environment (the delay before `download_image`, plus the trailing per-item
delay, separate consecutive downloads). -/
theorem wait_precedes_every_download_get :
    ∀ (se : SiteEnv) (quota fuel : Nat) (s : St),
      waitBeforeGets false (runFuel se quota fuel s).2 = true :=
  fun se quota fuel s => waitBeforeGets_runFuel se quota fuel s false

theorem netOkFrom_append (quota : Nat) (A : List Ev) :
    ∀ (B : List Ev) (c : Nat),
      netOkFrom quota c (A ++ B) =
        (netOkFrom quota c A && netOkFrom quota (c + countIncs A) B) := by
  induction A with
  | nil =>
    intro B c
    simp [netOkFrom, countIncs]
  | cons e A ih =>
    intro B c
    rw [List.cons_append, netOkFrom, netOkFrom, ih, Bool.and_assoc]
    by_cases he : e = Ev.inc
    · rw [if_pos he]
      have heq : c + 1 + countIncs A = c + countIncs (e :: A) := by
        subst he
        simp [countIncs, List.countP_cons]
        omega
      rw [heq]
    · rw [if_neg he]
      have heq : c + countIncs A = c + countIncs (e :: A) := by
        simp [countIncs, List.countP_cons, he]
      rw [heq]

theorem netOkFrom_processItems (se : SiteEnv) (quota : Nat) :
    ∀ (links : List (List Char)) (c : Nat) (fs : Fs),
      netOkFrom quota c (processItems se quota links c fs).2.2 = true ∧
      (processItems se quota links c fs).1 =
        c + countIncs (processItems se quota links c fs).2.2 := by
  intro links
  induction links with
  | nil =>
    intro c fs
    exact ⟨rfl, rfl⟩
  | cons d rest ih =>
    intro c fs
    simp only [processItems]
    by_cases hq : quota ≤ c
    · rw [if_pos hq]
      exact ⟨rfl, rfl⟩
    · rw [if_neg hq]
      have hlt : c < quota := Nat.not_le.1 hq
      rcases hg : getImg se d with _ | iu
      · simp only [hg]
        constructor
        · simp [netOkFrom, isNet, hlt, (ih c fs).1]
        · simp [countIncs, List.countP_cons, (ih c fs).2]
      · simp only [hg]
        rcases siteDownload_evs se iu fs with he | he <;>
          by_cases hb : (siteDownload se iu fs).1 = true
        · simp only [he, hb]
          constructor
          · simp [netOkFrom, isNet, hlt,
              (ih (c + 1) (siteDownload se iu fs).2.1).1]
          · simp [countIncs, List.countP_cons,
              (ih (c + 1) (siteDownload se iu fs).2.1).2]
            omega
        · have hb' : (siteDownload se iu fs).1 = false := by
            simp at hb
            exact hb
          simp only [he, hb']
          constructor
          · simp [netOkFrom, isNet, hlt, (ih c (siteDownload se iu fs).2.1).1]
          · simp [countIncs, List.countP_cons, (ih c (siteDownload se iu fs).2.1).2]
        · simp only [he, hb]
          constructor
          · simp [netOkFrom, isNet, hlt,
              (ih (c + 1) (siteDownload se iu fs).2.1).1]
          · simp [countIncs, List.countP_cons,
              (ih (c + 1) (siteDownload se iu fs).2.1).2]
            omega
        · have hb' : (siteDownload se iu fs).1 = false := by
            simp at hb
            exact hb
          simp only [he, hb']
          constructor
          · simp [netOkFrom, isNet, hlt, (ih c (siteDownload se iu fs).2.1).1]
          · simp [countIncs, List.countP_cons, (ih c (siteDownload se iu fs).2.1).2]

theorem netOkFrom_iterOnce (se : SiteEnv) (quota : Nat) (s : St)
    (h : s.count < quota) :
    netOkFrom quota s.count (iterOnce se quota s).2.2 = true ∧
    (iterOnce se quota s).1.count =
      s.count + countIncs (iterOnce se quota s).2.2 := by
  unfold iterOnce
  rcases hp : se.page s.url with _ | html
  · constructor
    · simp [netOkFrom, isNet, h]
    · simp [countIncs, List.countP_cons]
  · by_cases hl : se.links html = []
    · simp only [hl]
      constructor
      · simp [netOkFrom, isNet, h]
      · simp [countIncs, List.countP_cons]
    · simp only [hl]
      rcases hn : se.next html with _ | nu <;> simp only [hn] <;> constructor
      · simp [netOkFrom, isNet, h,
          (netOkFrom_processItems se quota (se.links html) s.count s.fs).1]
      · simp [countIncs, List.countP_cons,
          (netOkFrom_processItems se quota (se.links html) s.count s.fs).2]
      · simp [netOkFrom, isNet, h,
          (netOkFrom_processItems se quota (se.links html) s.count s.fs).1]
      · simp [countIncs, List.countP_cons,
          (netOkFrom_processItems se quota (se.links html) s.count s.fs).2]

theorem netOkFrom_runFuel (se : SiteEnv) (quota : Nat) :
    ∀ (fuel : Nat) (s : St),
      netOkFrom quota s.count (runFuel se quota fuel s).2 = true := by
  intro fuel
  induction fuel with
  | zero =>
    intro s
    rfl
  | succ n ih =>
    intro s
    rw [runFuel]
    by_cases hq : quota ≤ s.count
    · rw [if_pos hq]
      rfl
    · rw [if_neg hq]
      have hlt : s.count < quota := Nat.not_le.1 hq
      by_cases hc : (iterOnce se quota s).2.1 = true
      · simp only [hc, if_true]
        rw [netOkFrom_append]
        rw [Bool.and_eq_true]
        refine ⟨(netOkFrom_iterOnce se quota s hlt).1, ?_⟩
        rw [← (netOkFrom_iterOnce se quota s hlt).2]
        exact ih (iterOnce se quota s).1
      · have hc' : (iterOnce se quota s).2.1 = false := by
          simp at hc
          exact hc
        simp only [hc']
        exact (netOkFrom_iterOnce se quota s hlt).1

theorem netOkFrom_processItemsWC (se : SiteEnv) (quota : Nat) :
    ∀ (links : List (List Char)) (c : Nat) (fs : Fs),
      netOkFrom quota c (processItemsWC se quota links c fs).2.2 = true ∧
      (processItemsWC se quota links c fs).1 =
        c + countIncs (processItemsWC se quota links c fs).2.2 := by
  intro links
  induction links with
  | nil =>
    intro c fs
    exact ⟨rfl, rfl⟩
  | cons iu rest ih =>
    intro c fs
    simp only [processItemsWC]
    by_cases hq : quota ≤ c
    · rw [if_pos hq]
      exact ⟨rfl, rfl⟩
    · rw [if_neg hq]
      have hlt : c < quota := Nat.not_le.1 hq
      rcases download_image_evs (se.dlenv iu) iu se.saveDir fs with he | he <;>
        by_cases hb : (download_image (se.dlenv iu) iu se.saveDir fs).1 = true
      · simp only [he, hb]
        constructor
        · simp [netOkFrom, isNet, hlt,
            (ih (c + 1) (download_image (se.dlenv iu) iu se.saveDir fs).2.1).1]
        · simp [countIncs, List.countP_cons,
            (ih (c + 1) (download_image (se.dlenv iu) iu se.saveDir fs).2.1).2]
          omega
      · have hb' : (download_image (se.dlenv iu) iu se.saveDir fs).1 = false := by
          simp at hb
          exact hb
        simp only [he, hb']
        constructor
        · simp [netOkFrom, isNet, hlt,
            (ih c (download_image (se.dlenv iu) iu se.saveDir fs).2.1).1]
        · simp [countIncs, List.countP_cons,
            (ih c (download_image (se.dlenv iu) iu se.saveDir fs).2.1).2]
      · simp only [he, hb]
        constructor
        · simp [netOkFrom, isNet, hlt,
            (ih (c + 1) (download_image (se.dlenv iu) iu se.saveDir fs).2.1).1]
        · simp [countIncs, List.countP_cons,
            (ih (c + 1) (download_image (se.dlenv iu) iu se.saveDir fs).2.1).2]
          omega
      · have hb' : (download_image (se.dlenv iu) iu se.saveDir fs).1 = false := by
          simp at hb
          exact hb
        simp only [he, hb']
        constructor
        · simp [netOkFrom, isNet, hlt,
            (ih c (download_image (se.dlenv iu) iu se.saveDir fs).2.1).1]
        · simp [countIncs, List.countP_cons,
            (ih c (download_image (se.dlenv iu) iu se.saveDir fs).2.1).2]

theorem netOkFrom_iterOnceWC (se : SiteEnv) (quota : Nat) (s : St)
    (h : s.count < quota) :
    netOkFrom quota s.count (iterOnceWC se quota s).2.2 = true ∧
    (iterOnceWC se quota s).1.count =
      s.count + countIncs (iterOnceWC se quota s).2.2 := by
  unfold iterOnceWC
  rcases hp : se.page s.url with _ | html
  · constructor
    · simp [netOkFrom, isNet, h]
    · simp [countIncs, List.countP_cons]
  · by_cases hl : se.links html = []
    · simp only [hl]
      constructor
      · simp [netOkFrom, isNet, h]
      · simp [countIncs, List.countP_cons]
    · simp only [hl]
      rcases hn : se.next html with _ | nu <;> simp only [hn] <;> constructor
      · simp [netOkFrom, isNet, h,
          (netOkFrom_processItemsWC se quota (se.links html) s.count s.fs).1]
      · simp [countIncs, List.countP_cons,
          (netOkFrom_processItemsWC se quota (se.links html) s.count s.fs).2]
      · simp [netOkFrom, isNet, h,
          (netOkFrom_processItemsWC se quota (se.links html) s.count s.fs).1]
      · simp [countIncs, List.countP_cons,
          (netOkFrom_processItemsWC se quota (se.links html) s.count s.fs).2]

theorem netOkFrom_runFuelWC (se : SiteEnv) (quota : Nat) :
    ∀ (fuel : Nat) (s : St),
      netOkFrom quota s.count (runFuelWC se quota fuel s).2 = true := by
  intro fuel
  induction fuel with
  | zero =>
    intro s
    rfl
  | succ n ih =>
    intro s
    rw [runFuelWC]
    by_cases hq : quota ≤ s.count
    · rw [if_pos hq]
      rfl
    · rw [if_neg hq]
      have hlt : s.count < quota := Nat.not_le.1 hq
      by_cases hc : (iterOnceWC se quota s).2.1 = true
      · simp only [hc, if_true]
        rw [netOkFrom_append]
        rw [Bool.and_eq_true]
        refine ⟨(netOkFrom_iterOnceWC se quota s hlt).1, ?_⟩
        rw [← (netOkFrom_iterOnceWC se quota s hlt).2]
        exact ih (iterOnceWC se quota s).1
      · have hc' : (iterOnceWC se quota s).2.1 = false := by
          simp at hc
          exact hc
        simp only [hc']
        exact (netOkFrom_iterOnceWC se quota s hlt).1

/-- C2. In every crawl run of `WallHereScraper.run` and
`WallpaperCatScraper.run` (started with `downloaded_count = 0`), every
network event of the trace — listing `fetch_html`, detail `fetch_html`, or
image-download GET — occurs at a point where the number of count
increments so far is still below the quota: once `downloaded_count`
reaches `max_wallpapers`, no further network request is issued before the
run ends. -/
theorem no_network_after_quota :
    (∀ (se : SiteEnv) (quota fuel : Nat) (url : List Char) (fs : Fs),
      netOkFrom quota 0 (runFuel se quota fuel ⟨0, url, fs⟩).2 = true) ∧
    (∀ (se : SiteEnv) (quota fuel : Nat) (url : List Char) (fs : Fs),
      netOkFrom quota 0 (runFuelWC se quota fuel ⟨0, url, fs⟩).2 = true) :=
  ⟨fun se quota fuel url fs => netOkFrom_runFuel se quota fuel ⟨0, url, fs⟩,
   fun se quota fuel url fs => netOkFrom_runFuelWC se quota fuel ⟨0, url, fs⟩⟩
